import Mathlib

/-!
Verification of the Sette e Mezzo round engine (`src/main.py`).

Shallow embedding conventions:
* Python floats that the program uses (card values, scores, bets, balances)
  are modelled as `ℚ`.  Every numeric value the program manipulates is a
  multiple of `1/2` well inside the range where binary floating point is
  exact, so `ℚ` is a faithful model of the float arithmetic performed.
* `list.pop()` (removal of the last element, raising `IndexError` on an
  empty list) is modelled by `listPop`, returning `Option`.
* Route handlers that can raise an uncaught Python exception are modelled
  as functions into `Option`; `none` models the crash.
* The SQLAlchemy player table is modelled as a `List Player`; the query
  `db.query(Player).filter(Player.id == pid).first()` is `List.find?`, and
  mutating the balance of the queried row is `updateBalance` (which updates
  the first row with the given id, like mutation of the queried object).
* `random.shuffle` is modelled by passing the already shuffled deck as an
  argument, together with the fact that it is a permutation of `CARDS`.
-/

namespace SetteMezzo

/-- Embeds `CARDS = [1, 2, ..., 10] * 4` (line 31 of `src/main.py`). -/
def CARDS : List Nat :=
  [1, 2, 3, 4, 5, 6, 7, 8, 9, 10] ++ [1, 2, 3, 4, 5, 6, 7, 8, 9, 10] ++
  [1, 2, 3, 4, 5, 6, 7, 8, 9, 10] ++ [1, 2, 3, 4, 5, 6, 7, 8, 9, 10]

/-- Embeds `CARD_VALUES = {1:1, ..., 7:7, 8:0.5, 9:0.5, 10:0.5}` (line 32).
The Python dict has no keys outside `1..10`; the `_` branch is never hit by
the program, whose hands only contain ranks drawn from `CARDS`. -/
def CARD_VALUES : Nat → ℚ
  | 1 => 1 | 2 => 2 | 3 => 3 | 4 => 4 | 5 => 5 | 6 => 6 | 7 => 7
  | 8 => 1/2 | 9 => 1/2 | 10 => 1/2
  | _ => 0

/-- The body of the per-wildcard loop in `calculate_score` (lines 54-70):
`score % 1 == 0` on these floats is exactly the integrality test, modelled
as `score.den = 1`. -/
def wildcardStep (score : ℚ) : ℚ :=
  if score = 0 then score + 1/2
  else if 7 ≤ score then score + 1/2
  else if score.den = 1 then 7
  else 15/2

/-- Embeds `calculate_score` (lines 40-72): the non-wildcard base sum followed by
one `wildcardStep` per rank-10 card in the hand. -/
def calculate_score (hand : List Nat) : ℚ :=
  let base := ((hand.filter (fun c => c ≠ 10)).map CARD_VALUES).sum
  wildcardStep^[hand.count 10] base

/-- Spec §4.2 step 1 card value, transcribed from the specification text
(`cardValue(rank) = rank` for `1..7`, and `0.5` for ranks `8, 9`), for the
refinement comparison of claim C1. -/
def spec_card_value (r : Nat) : ℚ := if 1 ≤ r ∧ r ≤ 7 then r else 1/2

/-- Spec §4.2 step 3 wildcard resolution, transcribed from the claim C1 /
specification wording: `+0.5` if the score is `0`; `+0.5` if the score is
`≥ 7`; set to `7.0` if the score is a positive integer below `7`;
otherwise (a `.5` fractional part below `7`) set to `7.5`. -/
def spec_wildcard_step (s : ℚ) : ℚ :=
  if s = 0 then s + 1/2
  else if 7 ≤ s then s + 1/2
  else if 0 < s ∧ s < 7 ∧ s.den = 1 then 7
  else 15/2

/-- The spec's reference scoring algorithm (§4.2), for claim C1. -/
def spec_score (hand : List Nat) : ℚ :=
  let base := ((hand.filter (fun c => c ≠ 10)).map spec_card_value).sum
  spec_wildcard_step^[hand.count 10] base

/-- Card value measured in half points (`2 * CARD_VALUES`), used as an
executable Nat-valued evaluator for the ℚ-valued score. -/
def halfValue : Nat → ℕ
  | 1 => 2 | 2 => 4 | 3 => 6 | 4 => 8 | 5 => 10 | 6 => 12 | 7 => 14
  | 8 => 1 | 9 => 1 | 10 => 1
  | _ => 0

/-- The function `wildcardStep` on scores measured in half points. -/
def halfStep (n : ℕ) : ℕ :=
  if n = 0 then n + 1
  else if 14 ≤ n then n + 1
  else if n % 2 = 0 then 14
  else 15

/-- The score `calculate_score` measured in half points (`2 * calculate_score`). -/
def half_score (hand : List Nat) : ℕ :=
  halfStep^[hand.count 10] ((hand.filter (fun c => c ≠ 10)).map halfValue).sum

/-- A row of the `players` table (lines 16-20): integer primary key,
username, float balance. -/
structure Player where
  id : Nat
  username : String
  balance : ℚ
deriving DecidableEq

/-- The global `game_state` dict (lines 34-38). -/
structure GameState where
  deck : List Nat
  player_hand : List Nat
  dealer_hand : List Nat
  current_player_id : Option Nat
  bet : ℚ
  game_over : Bool
  result_message : String
  active : Bool
deriving DecidableEq

/-- The initial `game_state` value (lines 34-38): empty lists,
`current_player_id = None`, `bet = 0.0`, flags `False`, empty message. -/
def initial_game_state : GameState :=
  { deck := [], player_hand := [], dealer_hand := [],
    current_player_id := none, bet := 0,
    game_over := false, result_message := "", active := false }

/-- Python `list.pop()`: removes and returns the LAST element;
`none` models the `IndexError` on an empty list. -/
def listPop (l : List Nat) : Option (Nat × List Nat) :=
  match l.reverse with
  | [] => none
  | c :: rest => some (c, rest.reverse)

/-- Embeds `db.query(Player).filter(Player.id == game_state["current_player_id"]).first()`:
with `current_player_id = None` no row matches; otherwise the first row whose
id equals the requested id. -/
def queryPlayer (db : List Player) : Option Nat → Option Player
  | none => none
  | some pid => db.find? (fun p => p.id == pid)

/-- Mutation of the balance of the queried row followed by `db.commit()`:
adds `δ` to the balance of the first row with id `pid`. -/
def updateBalance (db : List Player) (pid : Nat) (δ : ℚ) : List Player :=
  match db with
  | [] => []
  | p :: rest =>
    if p.id == pid then { p with balance := p.balance + δ } :: rest
    else p :: updateBalance rest pid δ

/-- Balance of the first row with id `pid`, if any. -/
def getBalance (db : List Player) (pid : Nat) : Option ℚ :=
  (db.find? (fun p => p.id == pid)).map Player.balance

/-- Embeds `start_game` (lines 105-118).  The freshly shuffled deck is passed in as
`shuffled` (the caller supplies `random.shuffle`'s output).  On a rejected
request the handler just redirects, leaving `game_state` and the table
untouched.  Otherwise the round slot is rebuilt from scratch: one card is
popped for the player, a second for the dealer. -/
def start_game (player_id : Nat) (bet : ℚ) (shuffled : List Nat)
    (db : List Player) (gs : GameState) : Option (GameState × List Player) :=
  match db.find? (fun p => p.id == player_id) with
  | none => some (gs, db)
  | some player =>
    if player.balance < bet ∨ bet ≤ 0 then some (gs, db)
    else
      match listPop shuffled with
      | none => none
      | some (c1, d1) =>
        match listPop d1 with
        | none => none
        | some (c2, d2) =>
          some ({ deck := d2, player_hand := [c1], dealer_hand := [c2],
                  current_player_id := some player_id, bet := bet,
                  game_over := false, result_message := "", active := true }, db)

/-- Embeds `hit` (lines 120-138): guarded by `if not game_state["game_over"]`;
draws one card into the player hand, and on a score above `7.5` settles
the round as an immediate bust, deducting the bet from the queried player
(`if player:` guards the deduction). -/
def hit (db : List Player) (gs : GameState) : Option (GameState × List Player) :=
  if gs.game_over then some (gs, db)
  else
    match listPop gs.deck with
    | none => none
    | some (c, deck') =>
      let ph := gs.player_hand ++ [c]
      if calculate_score ph > 15/2 then
        let db' :=
          match queryPlayer db gs.current_player_id with
          | none => db
          | some player => updateBalance db player.id (-gs.bet)
        some ({ gs with deck := deck', player_hand := ph, game_over := true,
                        result_message := "Hai Sballato! Vince il Banco." }, db')
      else some ({ gs with deck := deck', player_hand := ph }, db)

/-- The dealer draw loop inside `stay` (lines 147-154): while the dealer
score is below `7.5`, stop if the dealer is strictly ahead with at least 6,
or ties the player with at least 6; otherwise pop a card into the dealer
hand and repeat.  `none` models popping an empty deck. -/
def dealer_loop (player_score : ℚ) (deck : List Nat) (dealer_hand : List Nat) :
    Option (List Nat × List Nat) :=
  if calculate_score dealer_hand < 15/2 then
    let ds := calculate_score dealer_hand
    if ds > player_score ∧ ds ≥ 6 then some (deck, dealer_hand)
    else if ds = player_score ∧ ds ≥ 6 then some (deck, dealer_hand)
    else
      match hpop2 : listPop deck with
      | none => none
      | some (c, deck') => dealer_loop player_score deck' (dealer_hand ++ [c])
  else some (deck, dealer_hand)
termination_by deck.length
decreasing_by
  simp only [listPop] at hpop2
  split at hpop2
  · exact absurd hpop2 (by simp)
  · rename_i a rest hr
    simp only [Option.some.injEq, Prod.mk.injEq] at hpop2
    obtain ⟨rfl, rfl⟩ := hpop2
    have h1 : deck.length = rest.length + 1 := by
      have h2 := congrArg List.length hr
      simpa using h2
    simp [h1]

/-- Embeds `stay` (lines 140-171): fix the player score, run the dealer loop, then
settle — the player wins the bet exactly when
`player_score ≤ 7.5 and (dealer_score > 7.5 or player_score > dealer_score)`,
and loses it otherwise.  `none` models the `AttributeError` raised when
`current_player_id` matches no row (`player.balance` on `None`). -/
def stay (db : List Player) (gs : GameState) : Option (GameState × List Player) :=
  let player_score := calculate_score gs.player_hand
  match dealer_loop player_score gs.deck gs.dealer_hand with
  | none => none
  | some (deck', dh') =>
    let dealer_score := calculate_score dh'
    match queryPlayer db gs.current_player_id with
    | none => none
    | some player =>
      if player_score ≤ 15/2 ∧ (dealer_score > 15/2 ∨ player_score > dealer_score) then
        some ({ gs with deck := deck', dealer_hand := dh', game_over := true,
                        result_message := "HAI VINTO! (Banco: " ++ toString dealer_score ++ ")" },
              updateBalance db player.id gs.bet)
      else
        some ({ gs with deck := deck', dealer_hand := dh', game_over := true,
                        result_message := "IL BANCO VINCE! (Banco: " ++ toString dealer_score ++ ")" },
              updateBalance db player.id (-gs.bet))

/-- Embeds `exit_game` (lines 173-176): clears only the `active` flag. -/
def exit_game (gs : GameState) : GameState := { gs with active := false }

/-- States reachable from a successful Start transition by any sequence of
Hit and Stand transitions (the round-engine executions of `src/main.py`). -/
inductive Reachable : GameState → List Player → Prop where
  | start (player_id : Nat) (bet : ℚ) (shuffled : List Nat) (db : List Player)
      (p : Player) (gs0 gs' : GameState) (db' : List Player)
      (hshuf : List.Perm shuffled CARDS)
      (hfind : db.find? (fun q => q.id == player_id) = some p)
      (hbal : ¬ p.balance < bet) (hpos : 0 < bet)
      (hstep : start_game player_id bet shuffled db gs0 = some (gs', db')) :
      Reachable gs' db'
  | hit_step (gs : GameState) (db : List Player) (gs' : GameState) (db' : List Player)
      (hr : Reachable gs db) (hstep : hit db gs = some (gs', db')) :
      Reachable gs' db'
  | stay_step (gs : GameState) (db : List Player) (gs' : GameState) (db' : List Player)
      (hr : Reachable gs db) (hstep : stay db gs = some (gs', db')) :
      Reachable gs' db'

/-! ### Concrete data used to exercise the transitions on closed inputs -/

/-- A registered player with the default balance. -/
def pW : Player := { id := 1, username := "ada", balance := 100 }

/-- A one-row player table. -/
def dbW : List Player := [pW]

/-- The round produced by a successful Start on the unshuffled `CARDS`
deck: the last two cards (a 10 and a 9) are dealt. -/
def gs_started : GameState :=
  { deck := CARDS.dropLast.dropLast, player_hand := [10], dealer_hand := [9],
    current_player_id := some 1, bet := 50,
    game_over := false, result_message := "", active := true }

/-- An already-Settled round (`game_over = true`). -/
def gs_settled : GameState :=
  { deck := [], player_hand := [1], dealer_hand := [7],
    current_player_id := some 1, bet := 10,
    game_over := true, result_message := "fine round", active := true }

/-- An InProgress round about to Stand: player holds a 3, dealer a 7. -/
def gs_stand : GameState :=
  { deck := [], player_hand := [3], dealer_hand := [7],
    current_player_id := some 1, bet := 10,
    game_over := false, result_message := "", active := true }

/-- An InProgress round about to Hit into a bust: player holds a 3 and the
next card is a 7. -/
def gs_hit : GameState :=
  { deck := [7], player_hand := [3], dealer_hand := [2],
    current_player_id := some 1, bet := 20,
    game_over := false, result_message := "", active := true }

/-- An InProgress round that a new Start request will overwrite. -/
def gs_busy : GameState :=
  { deck := [5, 6], player_hand := [7], dealer_hand := [2],
    current_player_id := some 1, bet := 30,
    game_over := false, result_message := "", active := true }

/-! ### Bridge between the ℚ-valued score and the Nat-valued half-point score -/

lemma CARD_VALUES_eq_half (c : ℕ) : CARD_VALUES c = (halfValue c : ℚ) / 2 :=
  match c with
  | 0 => by norm_num [CARD_VALUES, halfValue]
  | 1 => by norm_num [CARD_VALUES, halfValue]
  | 2 => by norm_num [CARD_VALUES, halfValue]
  | 3 => by norm_num [CARD_VALUES, halfValue]
  | 4 => by norm_num [CARD_VALUES, halfValue]
  | 5 => by norm_num [CARD_VALUES, halfValue]
  | 6 => by norm_num [CARD_VALUES, halfValue]
  | 7 => by norm_num [CARD_VALUES, halfValue]
  | 8 => by norm_num [CARD_VALUES, halfValue]
  | 9 => by norm_num [CARD_VALUES, halfValue]
  | 10 => by norm_num [CARD_VALUES, halfValue]
  | (n+11) => by
    rw [show CARD_VALUES (n+11) = 0 from rfl, show halfValue (n+11) = 0 from rfl]
    norm_num

lemma den_div_two (n : ℕ) : ((n : ℚ) / 2).den = 1 ↔ n % 2 = 0 := by
  constructor
  · intro h
    have h2 := (Rat.den_eq_one_iff _).1 h
    have h3 : (2 * ((n : ℚ) / 2).num : ℚ) = (n : ℚ) := by rw [h2]; ring
    have hzz : (2 * ((n : ℚ) / 2).num : ℤ) = (n : ℤ) := by exact_mod_cast h3
    omega
  · intro h
    have hm : n = 2 * (n / 2) := by omega
    rw [hm]
    have h4 : ((2 * (n / 2) : ℕ) : ℚ) / 2 = ((n / 2 : ℕ) : ℚ) := by push_cast; ring
    rw [h4, Rat.den_natCast]

lemma half_eq_zero_iff (n : ℕ) : ((n : ℚ) / 2 = 0) ↔ n = 0 := by
  constructor
  · intro h
    have h1 : (n : ℚ) = 0 := by linarith
    exact_mod_cast h1
  · intro h; subst h; norm_num

lemma seven_le_half_iff (n : ℕ) : (7 ≤ (n : ℚ) / 2) ↔ 14 ≤ n := by
  constructor
  · intro h
    have h1 : (14 : ℚ) ≤ (n : ℚ) := by linarith
    exact_mod_cast h1
  · intro h
    have h1 : (14 : ℚ) ≤ (n : ℚ) := by exact_mod_cast h
    linarith

lemma half_le_half_iff (m n : ℕ) : ((m : ℚ) / 2 ≤ (n : ℚ) / 2) ↔ m ≤ n := by
  constructor
  · intro h
    have h1 : (m : ℚ) ≤ (n : ℚ) := by linarith
    exact_mod_cast h1
  · intro h
    have h1 : (m : ℚ) ≤ (n : ℚ) := by exact_mod_cast h
    linarith

lemma half_lt_half_iff (m n : ℕ) : ((m : ℚ) / 2 < (n : ℚ) / 2) ↔ m < n := by
  constructor
  · intro h
    have h1 : (m : ℚ) < (n : ℚ) := by linarith
    exact_mod_cast h1
  · intro h
    have h1 : (m : ℚ) < (n : ℚ) := by exact_mod_cast h
    linarith

lemma half_eq_half_iff (m n : ℕ) : ((m : ℚ) / 2 = (n : ℚ) / 2) ↔ m = n := by
  constructor
  · intro h
    have h1 : (m : ℚ) = (n : ℚ) := by linarith
    exact_mod_cast h1
  · intro h; subst h; rfl

lemma wildcardStep_half (n : ℕ) : wildcardStep ((n : ℚ) / 2) = (halfStep n : ℚ) / 2 := by
  unfold wildcardStep halfStep
  by_cases h0 : n = 0
  · subst h0; norm_num
  · rw [if_neg (fun hc => h0 ((half_eq_zero_iff n).1 hc)), if_neg h0]
    by_cases h14 : 14 ≤ n
    · rw [if_pos ((seven_le_half_iff n).2 h14), if_pos h14]
      push_cast; ring
    · rw [if_neg (fun hc => h14 ((seven_le_half_iff n).1 hc)), if_neg h14]
      by_cases hev : n % 2 = 0
      · rw [if_pos ((den_div_two n).2 hev), if_pos hev]
        norm_num
      · rw [if_neg (fun hc => hev ((den_div_two n).1 hc)), if_neg hev]
        norm_num

lemma sum_map_half (l : List Nat) :
    (l.map CARD_VALUES).sum = ((l.map halfValue).sum : ℚ) / 2 := by
  induction l with
  | nil => simp
  | cons c l ih =>
    simp only [List.map_cons, List.sum_cons, ih, CARD_VALUES_eq_half c]
    push_cast; ring

lemma iterate_step_half (k n : ℕ) :
    wildcardStep^[k] ((n : ℚ) / 2) = (halfStep^[k] n : ℚ) / 2 := by
  induction k generalizing n with
  | zero => simp
  | succ k ih =>
    rw [Function.iterate_succ_apply, Function.iterate_succ_apply, wildcardStep_half, ih]

/-- The ℚ-valued score is the Nat-valued half-point score divided by two;
this makes every concrete score computation kernel-decidable. -/
lemma calculate_score_eq_half (hand : List Nat) :
    calculate_score hand = (half_score hand : ℚ) / 2 := by
  unfold calculate_score half_score
  rw [sum_map_half, iterate_step_half]

/-! ### Basic facts about `listPop` -/

lemma listPop_eq_none_iff (l : List Nat) : listPop l = none ↔ l = [] := by
  unfold listPop
  cases hr : l.reverse with
  | nil =>
    simpa using congrArg List.reverse hr
  | cons a rest =>
    simp only []
    constructor
    · intro h; simp at h
    · intro h; subst h; simp at hr

lemma listPop_eq_some_iff {l l' : List Nat} {c : Nat} :
    listPop l = some (c, l') ↔ l = l' ++ [c] := by
  unfold listPop
  cases hr : l.reverse with
  | nil =>
    have hl : l = [] := by simpa using congrArg List.reverse hr
    subst hl
    simp
  | cons a rest =>
    have hl : l = rest.reverse ++ [a] := by
      have := congrArg List.reverse hr
      simpa using this
    constructor
    · intro h
      simp only [Option.some.injEq, Prod.mk.injEq] at h
      obtain ⟨rfl, rfl⟩ := h
      exact hl
    · intro h
      subst h
      simp at hr
      obtain ⟨h1, h2⟩ := hr
      simp [h1, ← h2]

lemma listPop_length {l l' : List Nat} {c : Nat} (h : listPop l = some (c, l')) :
    l.length = l'.length + 1 := by
  rw [listPop_eq_some_iff] at h
  subst h
  simp

lemma listPop_perm {l l' : List Nat} {c : Nat} (h : listPop l = some (c, l')) :
    List.Perm l (c :: l') := by
  rw [listPop_eq_some_iff] at h
  subst h
  exact List.perm_append_comm

lemma listPop_of_ne_nil {l : List Nat} (h : l ≠ []) :
    ∃ c l', listPop l = some (c, l') := by
  cases hp : listPop l with
  | none => exact absurd ((listPop_eq_none_iff l).1 hp) h
  | some p => exact ⟨p.1, p.2, by simp [hp]⟩

lemma listPop_append (l : List Nat) (c : Nat) :
    listPop (l ++ [c]) = some (c, l) := listPop_eq_some_iff.2 rfl

/-! ### Score bounds -/

lemma halfValue_pos {c : ℕ} (hc1 : 1 ≤ c) (hc2 : c ≤ 10) : 1 ≤ halfValue c := by
  interval_cases c <;> decide

lemma halfStep_ge (n : ℕ) : n + 1 ≤ halfStep n := by
  unfold halfStep
  split_ifs <;> omega

lemma iterate_halfStep_ge (k : ℕ) : ∀ n : ℕ, n + k ≤ halfStep^[k] n := by
  induction k with
  | zero => intro n; simp
  | succ k ih =>
    intro n
    rw [Function.iterate_succ_apply]
    have h1 := halfStep_ge n
    have h2 := ih (halfStep n)
    omega

lemma filter_count_length (l : List Nat) :
    (l.filter (fun c => c ≠ 10)).length + l.count 10 = l.length := by
  induction l with
  | nil => simp
  | cons c t ih =>
    by_cases hc : c = 10
    · subst hc
      have h1 : ((10 :: t).filter (fun x => x ≠ 10)) = t.filter (fun x => x ≠ 10) := by
        simp
      rw [h1, List.count_cons]
      simp only [List.length_cons, beq_self_eq_true, if_true]
      omega
    · have h1 : ((c :: t).filter (fun x => x ≠ 10)) = c :: t.filter (fun x => x ≠ 10) := by
        simp [hc]
      rw [h1, List.count_cons, if_neg (by simpa using hc)]
      simp only [List.length_cons]
      omega

lemma sum_halfValue_ge_length (l : List Nat) (h : ∀ c ∈ l, 1 ≤ c ∧ c ≤ 10) :
    l.length ≤ (l.map halfValue).sum := by
  induction l with
  | nil => simp
  | cons c t ih =>
    have hc := h c (by simp)
    have ht := ih (fun x hx => h x (by simp [hx]))
    have hv := halfValue_pos hc.1 hc.2
    simp only [List.map_cons, List.sum_cons, List.length_cons]
    omega

lemma length_le_half_score (hand : List Nat) (h : ∀ c ∈ hand, 1 ≤ c ∧ c ≤ 10) :
    hand.length ≤ half_score hand := by
  unfold half_score
  have h1 : (hand.filter (fun c => c ≠ 10)).length ≤
      ((hand.filter (fun c => c ≠ 10)).map halfValue).sum :=
    sum_halfValue_ge_length _ (fun c hc => h c (List.mem_of_mem_filter hc))
  have h2 := iterate_halfStep_ge (hand.count 10)
      ((hand.filter (fun c => c ≠ 10)).map halfValue).sum
  have h3 := filter_count_length hand
  omega

lemma score_lt_bust_length {hand : List Nat} (hmem : ∀ c ∈ hand, 1 ≤ c ∧ c ≤ 10)
    (h : calculate_score hand < 15/2) : hand.length < 15 := by
  rw [calculate_score_eq_half, show (15:ℚ)/2 = ((15:ℕ):ℚ)/2 by norm_num,
      half_lt_half_iff] at h
  have := length_le_half_score hand hmem
  omega

lemma score_le_length {hand : List Nat} (hmem : ∀ c ∈ hand, 1 ≤ c ∧ c ≤ 10)
    (h : calculate_score hand ≤ 15/2) : hand.length ≤ 15 := by
  rw [calculate_score_eq_half, show (15:ℚ)/2 = ((15:ℕ):ℚ)/2 by norm_num,
      half_le_half_iff] at h
  have := length_le_half_score hand hmem
  omega

lemma score_single_le {c : ℕ} (hc1 : 1 ≤ c) (hc2 : c ≤ 10) :
    calculate_score [c] ≤ 15/2 := by
  rw [calculate_score_eq_half, show (15:ℚ)/2 = ((15:ℕ):ℚ)/2 by norm_num,
      half_le_half_iff]
  interval_cases c <;> decide

/-! ### Equivalence of `calculate_score` with the spec's reference algorithm -/

lemma CARD_VALUES_nonneg (c : ℕ) : 0 ≤ CARD_VALUES c := by
  rw [CARD_VALUES_eq_half]
  positivity

lemma wildcardStep_nonneg {s : ℚ} (hs : 0 ≤ s) : 0 ≤ wildcardStep s := by
  unfold wildcardStep
  split_ifs <;> linarith

lemma wildcardStep_eq_spec {s : ℚ} (hs : 0 ≤ s) :
    wildcardStep s = spec_wildcard_step s := by
  unfold wildcardStep spec_wildcard_step
  by_cases h0 : s = 0
  · rw [if_pos h0, if_pos h0]
  · rw [if_neg h0, if_neg h0]
    by_cases h7 : 7 ≤ s
    · rw [if_pos h7, if_pos h7]
    · rw [if_neg h7, if_neg h7]
      have hlt : s < 7 := lt_of_not_le h7
      have hpos : 0 < s := lt_of_le_of_ne hs (Ne.symm h0)
      by_cases hden : s.den = 1
      · rw [if_pos hden, if_pos ⟨hpos, hlt, hden⟩]
      · rw [if_neg hden, if_neg (fun hc => hden hc.2.2)]

lemma spec_card_value_eq {c : ℕ} (hc1 : 1 ≤ c) (hc2 : c ≤ 10) :
    CARD_VALUES c = spec_card_value c := by
  interval_cases c <;> norm_num [CARD_VALUES, spec_card_value]

lemma iterate_wildcardStep_eq_spec (k : ℕ) : ∀ s : ℚ, 0 ≤ s →
    wildcardStep^[k] s = spec_wildcard_step^[k] s := by
  induction k with
  | zero => intro s _; simp
  | succ k ih =>
    intro s hs
    rw [Function.iterate_succ_apply, Function.iterate_succ_apply,
        wildcardStep_eq_spec hs, ← wildcardStep_eq_spec hs,
        ih (wildcardStep s) (wildcardStep_nonneg hs), wildcardStep_eq_spec hs]

lemma base_sum_nonneg (l : List Nat) : 0 ≤ (l.map CARD_VALUES).sum := by
  apply List.sum_nonneg
  intro x hx
  obtain ⟨c, _, rfl⟩ := List.mem_map.1 hx
  exact CARD_VALUES_nonneg c

lemma calculate_score_eq_spec_score {hand : List Nat}
    (hmem : ∀ c ∈ hand, 1 ≤ c ∧ c ≤ 10) :
    calculate_score hand = spec_score hand := by
  unfold calculate_score spec_score
  have hbase : ((hand.filter (fun c => c ≠ 10)).map CARD_VALUES) =
      ((hand.filter (fun c => c ≠ 10)).map spec_card_value) := by
    apply List.map_congr_left
    intro c hc
    have h := hmem c (List.mem_of_mem_filter hc)
    exact spec_card_value_eq h.1 h.2
  rw [← hbase]
  exact iterate_wildcardStep_eq_spec (hand.count 10) _ (base_sum_nonneg _)

/-! ### `dealer_loop` unfolding characterization -/

lemma dealer_loop_eq_of_ge {hand : List Nat} (ps : ℚ) (deck : List Nat)
    (h : ¬ calculate_score hand < 15/2) :
    dealer_loop ps deck hand = some (deck, hand) := by
  rw [dealer_loop, if_neg h]

lemma dealer_loop_eq_of_break {ps : ℚ} {hand : List Nat} (deck : List Nat)
    (h : calculate_score hand < 15/2)
    (hbr : (calculate_score hand > ps ∧ calculate_score hand ≥ 6) ∨
           (calculate_score hand = ps ∧ calculate_score hand ≥ 6)) :
    dealer_loop ps deck hand = some (deck, hand) := by
  rw [dealer_loop, if_pos h]
  rcases hbr with hbr | hbr
  · rw [if_pos hbr]
  · by_cases hw : calculate_score hand > ps ∧ calculate_score hand ≥ 6
    · rw [if_pos hw]
    · rw [if_neg hw, if_pos hbr]

lemma dealer_loop_eq_of_draw {ps : ℚ} {hand deck deck' : List Nat} {c : Nat}
    (h : calculate_score hand < 15/2)
    (hw : ¬ (calculate_score hand > ps ∧ calculate_score hand ≥ 6))
    (ht : ¬ (calculate_score hand = ps ∧ calculate_score hand ≥ 6))
    (hpop : listPop deck = some (c, deck')) :
    dealer_loop ps deck hand = dealer_loop ps deck' (hand ++ [c]) := by
  rw [dealer_loop, if_pos h, if_neg hw, if_neg ht]
  split
  · rename_i heq
    rw [heq] at hpop
    exact absurd hpop (by simp)
  · rename_i c0 d0 heq
    rw [heq] at hpop
    simp only [Option.some.injEq, Prod.mk.injEq] at hpop
    obtain ⟨rfl, rfl⟩ := hpop
    rfl

lemma dealer_loop_eq_of_empty {ps : ℚ} {hand deck : List Nat}
    (h : calculate_score hand < 15/2)
    (hw : ¬ (calculate_score hand > ps ∧ calculate_score hand ≥ 6))
    (ht : ¬ (calculate_score hand = ps ∧ calculate_score hand ≥ 6))
    (hpop : listPop deck = none) :
    dealer_loop ps deck hand = none := by
  rw [dealer_loop, if_pos h, if_neg hw, if_neg ht]
  split
  · rfl
  · rename_i c0 d0 heq
    rw [heq] at hpop
    exact absurd hpop (by simp)

/-! ### Permutation bookkeeping for moving one card from the deck to a hand -/

lemma perm_move_card {A B deck deck' : List Nat} {c : Nat}
    (hd : List.Perm deck (c :: deck')) :
    List.Perm ((A ++ [c]) ++ B ++ deck') (A ++ B ++ deck) := by
  have h1 : (((A ++ [c]) ++ B ++ deck' : List ℕ) : Multiset ℕ) =
      ↑A + {c} + ↑B + ↑deck' := by
    rw [← Multiset.coe_add, ← Multiset.coe_add, ← Multiset.coe_add, Multiset.coe_singleton]
  have h2 : ((A ++ B ++ deck : List ℕ) : Multiset ℕ) = ↑A + ↑B + ↑deck := by
    rw [← Multiset.coe_add, ← Multiset.coe_add]
  have h3 : (↑deck : Multiset ℕ) = {c} + ↑deck' := by
    rw [Multiset.coe_eq_coe.2 hd, ← Multiset.cons_coe, Multiset.singleton_add]
  rw [← Multiset.coe_eq_coe, h1, h2, h3]
  abel

lemma perm_move_card2 {A deck deck' : List Nat} {c : Nat}
    (hd : List.Perm deck (c :: deck')) :
    List.Perm ((A ++ [c]) ++ deck') (A ++ deck) := by
  have h1 : (((A ++ [c]) ++ deck' : List ℕ) : Multiset ℕ) = ↑A + {c} + ↑deck' := by
    rw [← Multiset.coe_add, ← Multiset.coe_add, Multiset.coe_singleton]
  have h2 : ((A ++ deck : List ℕ) : Multiset ℕ) = ↑A + ↑deck := by
    rw [← Multiset.coe_add]
  have h3 : (↑deck : Multiset ℕ) = {c} + ↑deck' := by
    rw [Multiset.coe_eq_coe.2 hd, ← Multiset.cons_coe, Multiset.singleton_add]
  rw [← Multiset.coe_eq_coe, h1, h2, h3]
  abel

/-! ### `dealer_loop`: card conservation and no draw from an empty deck -/

lemma dealer_loop_perm_aux (ps : ℚ) (n : ℕ) :
    ∀ (deck hand deck' hand' : List Nat), deck.length ≤ n →
    dealer_loop ps deck hand = some (deck', hand') →
    List.Perm (hand ++ deck) (hand' ++ deck') := by
  induction n with
  | zero =>
    intro deck hand deck' hand' hlen heq
    have hdeck : deck = [] := List.length_eq_zero.1 (Nat.le_zero.1 hlen)
    subst hdeck
    by_cases h1 : calculate_score hand < 15/2
    · by_cases h2 : calculate_score hand > ps ∧ calculate_score hand ≥ 6
      · rw [dealer_loop_eq_of_break _ h1 (Or.inl h2)] at heq
        simp only [Option.some.injEq, Prod.mk.injEq] at heq
        obtain ⟨rfl, rfl⟩ := heq
        exact List.Perm.refl _
      · by_cases h3 : calculate_score hand = ps ∧ calculate_score hand ≥ 6
        · rw [dealer_loop_eq_of_break _ h1 (Or.inr h3)] at heq
          simp only [Option.some.injEq, Prod.mk.injEq] at heq
          obtain ⟨rfl, rfl⟩ := heq
          exact List.Perm.refl _
        · rw [dealer_loop_eq_of_empty h1 h2 h3 ((listPop_eq_none_iff []).2 rfl)] at heq
          exact absurd heq (by simp)
    · rw [dealer_loop_eq_of_ge _ _ h1] at heq
      simp only [Option.some.injEq, Prod.mk.injEq] at heq
      obtain ⟨rfl, rfl⟩ := heq
      exact List.Perm.refl _
  | succ n ih =>
    intro deck hand deck' hand' hlen heq
    by_cases h1 : calculate_score hand < 15/2
    · by_cases h2 : calculate_score hand > ps ∧ calculate_score hand ≥ 6
      · rw [dealer_loop_eq_of_break _ h1 (Or.inl h2)] at heq
        simp only [Option.some.injEq, Prod.mk.injEq] at heq
        obtain ⟨rfl, rfl⟩ := heq
        exact List.Perm.refl _
      · by_cases h3 : calculate_score hand = ps ∧ calculate_score hand ≥ 6
        · rw [dealer_loop_eq_of_break _ h1 (Or.inr h3)] at heq
          simp only [Option.some.injEq, Prod.mk.injEq] at heq
          obtain ⟨rfl, rfl⟩ := heq
          exact List.Perm.refl _
        · cases hp : listPop deck with
          | none =>
            rw [dealer_loop_eq_of_empty h1 h2 h3 hp] at heq
            exact absurd heq (by simp)
          | some p =>
            obtain ⟨c, d0⟩ := p
            rw [dealer_loop_eq_of_draw h1 h2 h3 hp] at heq
            have hlen' : d0.length ≤ n := by
              have := listPop_length hp
              omega
            have hperm := ih d0 (hand ++ [c]) deck' hand' hlen' heq
            exact List.Perm.trans (perm_move_card2 (listPop_perm hp)).symm hperm
    · rw [dealer_loop_eq_of_ge _ _ h1] at heq
      simp only [Option.some.injEq, Prod.mk.injEq] at heq
      obtain ⟨rfl, rfl⟩ := heq
      exact List.Perm.refl _

lemma dealer_loop_perm {ps : ℚ} {deck hand deck' hand' : List Nat}
    (heq : dealer_loop ps deck hand = some (deck', hand')) :
    List.Perm (hand ++ deck) (hand' ++ deck') :=
  dealer_loop_perm_aux ps deck.length deck hand deck' hand' (le_refl _) heq

lemma dealer_loop_some_aux (ps : ℚ) (n : ℕ) :
    ∀ (deck hand : List Nat), deck.length ≤ n →
    (∀ c ∈ hand, 1 ≤ c ∧ c ≤ 10) → (∀ c ∈ deck, 1 ≤ c ∧ c ≤ 10) →
    15 ≤ deck.length + hand.length →
    (dealer_loop ps deck hand).isSome = true := by
  induction n with
  | zero =>
    intro deck hand hlen hmemh _hmemd htotal
    have hdeck : deck = [] := List.length_eq_zero.1 (Nat.le_zero.1 hlen)
    subst hdeck
    have hge : ¬ calculate_score hand < 15/2 := by
      intro hlt
      have := score_lt_bust_length hmemh hlt
      simp at htotal
      omega
    rw [dealer_loop_eq_of_ge _ _ hge]
    rfl
  | succ n ih =>
    intro deck hand hlen hmemh hmemd htotal
    by_cases h1 : calculate_score hand < 15/2
    · by_cases h2 : calculate_score hand > ps ∧ calculate_score hand ≥ 6
      · rw [dealer_loop_eq_of_break _ h1 (Or.inl h2)]; rfl
      · by_cases h3 : calculate_score hand = ps ∧ calculate_score hand ≥ 6
        · rw [dealer_loop_eq_of_break _ h1 (Or.inr h3)]; rfl
        · have hhand : hand.length < 15 := score_lt_bust_length hmemh h1
          have hdeck_ne : deck ≠ [] := by
            intro hd
            subst hd
            simp at htotal
            omega
          obtain ⟨c, d0, hp⟩ := listPop_of_ne_nil hdeck_ne
          rw [dealer_loop_eq_of_draw h1 h2 h3 hp]
          have hsplit : deck = d0 ++ [c] := listPop_eq_some_iff.1 hp
          have hlen0 := listPop_length hp
          apply ih d0 (hand ++ [c])
          · omega
          · intro x hx
            rcases List.mem_append.1 hx with hx | hx
            · exact hmemh x hx
            · simp at hx
              subst hx
              exact hmemd x (by rw [hsplit]; simp)
          · intro x hx
            exact hmemd x (by rw [hsplit]; exact List.mem_append.2 (Or.inl hx))
          · simp
            omega
    · rw [dealer_loop_eq_of_ge _ _ h1]; rfl

lemma dealer_loop_some {ps : ℚ} {deck hand : List Nat}
    (hmemh : ∀ c ∈ hand, 1 ≤ c ∧ c ≤ 10) (hmemd : ∀ c ∈ deck, 1 ≤ c ∧ c ≤ 10)
    (htotal : 15 ≤ deck.length + hand.length) :
    (dealer_loop ps deck hand).isSome = true :=
  dealer_loop_some_aux ps deck.length deck hand (le_refl _) hmemh hmemd htotal

/-! ### The player table: `find?` and `updateBalance` -/

lemma find?_id_eq {db : List Player} {pid : Nat} {p : Player}
    (h : db.find? (fun q => q.id == pid) = some p) : p.id = pid := by
  have h1 := List.find?_some h
  simpa using h1

lemma getBalance_updateBalance (db : List Player) (pid : Nat) (δ : ℚ) :
    getBalance (updateBalance db pid δ) pid = (getBalance db pid).map (· + δ) := by
  induction db with
  | nil => rfl
  | cons q rest ih =>
    by_cases hq : q.id = pid
    · have hb : (q.id == pid) = true := by simpa using hq
      simp only [updateBalance, hb, if_true]
      unfold getBalance
      rw [List.find?_cons_of_pos _ (by simpa using hq),
          List.find?_cons_of_pos _ (by simpa using hq)]
      simp
    · have hb : (q.id == pid) = false := by simpa using hq
      simp only [updateBalance, hb, Bool.false_eq_true, if_false]
      unfold getBalance
      rw [List.find?_cons_of_neg _ (by simpa using hq),
          List.find?_cons_of_neg _ (by simpa using hq)]
      exact ih

lemma getBalance_of_find? {db : List Player} {pid : Nat} {p : Player}
    (h : db.find? (fun q => q.id == pid) = some p) :
    getBalance db pid = some p.balance := by
  simp [getBalance, h]

/-! ### Transition characterizations -/

lemma start_game_reject_none {pid : Nat} {bet : ℚ} {shuffled : List Nat}
    {db : List Player} (gs : GameState)
    (h : db.find? (fun q => q.id == pid) = none) :
    start_game pid bet shuffled db gs = some (gs, db) := by
  unfold start_game
  rw [h]

lemma start_game_reject_bet {pid : Nat} {bet : ℚ} {shuffled : List Nat}
    {db : List Player} {p : Player} (gs : GameState)
    (h : db.find? (fun q => q.id == pid) = some p)
    (hb : p.balance < bet ∨ bet ≤ 0) :
    start_game pid bet shuffled db gs = some (gs, db) := by
  simp only [start_game, h]
  rw [if_pos hb]

lemma start_game_accept {pid : Nat} {bet : ℚ} {shuffled d1 d2 : List Nat}
    {c1 c2 : Nat} {db : List Player} {p : Player} (gs : GameState)
    (h : db.find? (fun q => q.id == pid) = some p)
    (hb : ¬ (p.balance < bet ∨ bet ≤ 0))
    (h1 : listPop shuffled = some (c1, d1))
    (h2 : listPop d1 = some (c2, d2)) :
    start_game pid bet shuffled db gs =
      some ({ deck := d2, player_hand := [c1], dealer_hand := [c2],
              current_player_id := some pid, bet := bet,
              game_over := false, result_message := "", active := true }, db) := by
  simp only [start_game, h, h1, h2]
  rw [if_neg hb]

lemma hit_settled {db : List Player} {gs : GameState} (h : gs.game_over = true) :
    hit db gs = some (gs, db) := by
  simp only [hit, h, if_true]

lemma hit_empty {db : List Player} {gs : GameState} (hgo : gs.game_over = false)
    (hpop : listPop gs.deck = none) : hit db gs = none := by
  simp only [hit, hgo, Bool.false_eq_true, if_false, hpop]

lemma hit_bust {db : List Player} {gs : GameState} {c : Nat} {deck' : List Nat}
    (hgo : gs.game_over = false) (hpop : listPop gs.deck = some (c, deck'))
    (hbust : calculate_score (gs.player_hand ++ [c]) > 15/2) :
    hit db gs = some ({ gs with deck := deck', player_hand := gs.player_hand ++ [c],
                                game_over := true,
                                result_message := "Hai Sballato! Vince il Banco." },
      match queryPlayer db gs.current_player_id with
      | none => db
      | some player => updateBalance db player.id (-gs.bet)) := by
  simp only [hit, hgo, Bool.false_eq_true, if_false, hpop]
  rw [if_pos hbust]

lemma hit_safe {db : List Player} {gs : GameState} {c : Nat} {deck' : List Nat}
    (hgo : gs.game_over = false) (hpop : listPop gs.deck = some (c, deck'))
    (hsafe : ¬ calculate_score (gs.player_hand ++ [c]) > 15/2) :
    hit db gs = some ({ gs with deck := deck', player_hand := gs.player_hand ++ [c] }, db) := by
  simp only [hit, hgo, Bool.false_eq_true, if_false, hpop]
  rw [if_neg hsafe]

lemma stay_win {db : List Player} {gs : GameState} {deck' dh' : List Nat} {p : Player}
    (hloop : dealer_loop (calculate_score gs.player_hand) gs.deck gs.dealer_hand =
      some (deck', dh'))
    (hq : queryPlayer db gs.current_player_id = some p)
    (hc : calculate_score gs.player_hand ≤ 15/2 ∧
      (calculate_score dh' > 15/2 ∨ calculate_score gs.player_hand > calculate_score dh')) :
    stay db gs = some ({ gs with deck := deck', dealer_hand := dh', game_over := true,
                                 result_message :=
                                   "HAI VINTO! (Banco: " ++ toString (calculate_score dh') ++ ")" },
      updateBalance db p.id gs.bet) := by
  simp only [stay, hloop, hq]
  rw [if_pos hc]

lemma stay_lose {db : List Player} {gs : GameState} {deck' dh' : List Nat} {p : Player}
    (hloop : dealer_loop (calculate_score gs.player_hand) gs.deck gs.dealer_hand =
      some (deck', dh'))
    (hq : queryPlayer db gs.current_player_id = some p)
    (hc : ¬ (calculate_score gs.player_hand ≤ 15/2 ∧
      (calculate_score dh' > 15/2 ∨ calculate_score gs.player_hand > calculate_score dh'))) :
    stay db gs = some ({ gs with deck := deck', dealer_hand := dh', game_over := true,
                                 result_message :=
                                   "IL BANCO VINCE! (Banco: " ++ toString (calculate_score dh') ++ ")" },
      updateBalance db p.id (-gs.bet)) := by
  simp only [stay, hloop, hq]
  rw [if_neg hc]

lemma stay_some_elim {db : List Player} {gs gs' : GameState} {db' : List Player}
    (hstep : stay db gs = some (gs', db')) :
    ∃ deck' dh' p,
      dealer_loop (calculate_score gs.player_hand) gs.deck gs.dealer_hand = some (deck', dh') ∧
      queryPlayer db gs.current_player_id = some p ∧
      gs'.player_hand = gs.player_hand ∧ gs'.deck = deck' ∧ gs'.dealer_hand = dh' ∧
      gs'.game_over = true := by
  simp only [stay] at hstep
  cases hloop : dealer_loop (calculate_score gs.player_hand) gs.deck gs.dealer_hand with
  | none => rw [hloop] at hstep; simp at hstep
  | some pr =>
    obtain ⟨deck', dh'⟩ := pr
    rw [hloop] at hstep
    cases hq : queryPlayer db gs.current_player_id with
    | none => rw [hq] at hstep; simp at hstep
    | some p =>
      rw [hq] at hstep
      simp only [] at hstep
      by_cases hc : calculate_score gs.player_hand ≤ 15/2 ∧
          (calculate_score dh' > 15/2 ∨ calculate_score gs.player_hand > calculate_score dh')
      · rw [if_pos hc] at hstep
        simp only [Option.some.injEq, Prod.mk.injEq] at hstep
        obtain ⟨rfl, rfl⟩ := hstep
        exact ⟨deck', dh', p, rfl, rfl, rfl, rfl, rfl, rfl⟩
      · rw [if_neg hc] at hstep
        simp only [Option.some.injEq, Prod.mk.injEq] at hstep
        obtain ⟨rfl, rfl⟩ := hstep
        exact ⟨deck', dh', p, rfl, rfl, rfl, rfl, rfl, rfl⟩

/-! ### The reachability invariant -/

lemma CARDS_mem : ∀ c ∈ CARDS, 1 ≤ c ∧ c ≤ 10 := by decide

lemma CARDS_length : CARDS.length = 40 := rfl

lemma bounds_of_perm {l : List Nat} (h : List.Perm l CARDS) :
    ∀ c ∈ l, 1 ≤ c ∧ c ≤ 10 :=
  fun c hc => CARDS_mem c (h.mem_iff.1 hc)

lemma reachable_invariant {gs : GameState} {db : List Player} (h : Reachable gs db) :
    List.Perm (gs.player_hand ++ gs.dealer_hand ++ gs.deck) CARDS ∧
    (gs.game_over = false → calculate_score gs.player_hand ≤ 15/2) ∧
    gs.player_hand.length ≤ 16 := by
  induction h with
  | start pid bet shuffled db p gs0 gs' db' hshuf hfind hbal hpos hstep =>
    have hbet : ¬ (p.balance < bet ∨ bet ≤ 0) := not_or.2 ⟨hbal, not_le.2 hpos⟩
    have hlen : shuffled.length = 40 := by rw [hshuf.length_eq]; rfl
    have hne : shuffled ≠ [] := by
      intro hn; subst hn; simp at hlen
    obtain ⟨c1, d1, hp1⟩ := listPop_of_ne_nil hne
    have hd1 : d1.length = 39 := by
      have := listPop_length hp1; omega
    have hne1 : d1 ≠ [] := by
      intro hn; subst hn; simp at hd1
    obtain ⟨c2, d2, hp2⟩ := listPop_of_ne_nil hne1
    have hacc := start_game_accept gs0 hfind hbet hp1 hp2
    rw [hstep] at hacc
    simp only [Option.some.injEq, Prod.mk.injEq] at hacc
    obtain ⟨rfl, rfl⟩ := hacc
    have hperm1 : List.Perm shuffled (c1 :: d1) := listPop_perm hp1
    have hperm2 : List.Perm d1 (c2 :: d2) := listPop_perm hp2
    have hperm : List.Perm ([c1] ++ [c2] ++ d2) CARDS := by
      refine List.Perm.trans ?_ hshuf
      show List.Perm (c1 :: c2 :: d2) shuffled
      exact List.Perm.trans (List.Perm.cons c1 hperm2.symm) hperm1.symm
    refine ⟨hperm, ?_, by simp⟩
    intro _
    have hc1 : c1 ∈ CARDS := (hshuf.mem_iff).1 (hperm1.mem_iff.2 (by simp))
    have hb := CARDS_mem c1 hc1
    exact score_single_le hb.1 hb.2
  | hit_step gs db gs' db' hr hstep ih =>
    obtain ⟨ihp, ihs, ihl⟩ := ih
    cases hgo : gs.game_over with
    | true =>
      rw [hit_settled hgo] at hstep
      simp only [Option.some.injEq, Prod.mk.injEq] at hstep
      obtain ⟨rfl, rfl⟩ := hstep
      exact ⟨ihp, ihs, ihl⟩
    | false =>
      have hplen : gs.player_hand.length ≤ 15 := by
        have hmem : ∀ c ∈ gs.player_hand, 1 ≤ c ∧ c ≤ 10 := by
          intro c hc
          exact bounds_of_perm ihp c (by simp [hc])
        exact score_le_length hmem (ihs hgo)
      cases hpop : listPop gs.deck with
      | none =>
        rw [hit_empty hgo hpop] at hstep
        exact absurd hstep (by simp)
      | some pr =>
        obtain ⟨c, deck'⟩ := pr
        have hmove : List.Perm ((gs.player_hand ++ [c]) ++ gs.dealer_hand ++ deck')
            (gs.player_hand ++ gs.dealer_hand ++ gs.deck) :=
          perm_move_card (listPop_perm hpop)
        by_cases hbust : calculate_score (gs.player_hand ++ [c]) > 15/2
        · rw [hit_bust hgo hpop hbust] at hstep
          simp only [Option.some.injEq, Prod.mk.injEq] at hstep
          obtain ⟨rfl, rfl⟩ := hstep
          refine ⟨List.Perm.trans hmove ihp, ?_, ?_⟩
          · intro hcontra; simp at hcontra
          · simp
            omega
        · rw [hit_safe hgo hpop hbust] at hstep
          simp only [Option.some.injEq, Prod.mk.injEq] at hstep
          obtain ⟨rfl, rfl⟩ := hstep
          refine ⟨List.Perm.trans hmove ihp, ?_, ?_⟩
          · intro _
            exact not_lt.1 hbust
          · simp
            omega
  | stay_step gs db gs' db' hr hstep ih =>
    obtain ⟨ihp, ihs, ihl⟩ := ih
    obtain ⟨deck', dh', p, hloop, hq, hph, hdk, hdh, hgo'⟩ := stay_some_elim hstep
    have hlperm := dealer_loop_perm hloop
    refine ⟨?_, ?_, ?_⟩
    · rw [hph, hdk, hdh]
      refine List.Perm.trans ?_ ihp
      rw [List.append_assoc, List.append_assoc]
      exact List.Perm.append_left gs.player_hand hlperm.symm
    · intro hcontra
      rw [hgo'] at hcontra
      simp at hcontra
    · rw [hph]
      exact ihl

/-- Memberships and sizes needed to run the dealer loop from a reachable
state: every card in play is a real card, and the deck plus dealer hand
still hold at least 15 cards. -/
lemma reachable_dealer_loop_some {gs : GameState} {db : List Player}
    (h : Reachable gs db) :
    (dealer_loop (calculate_score gs.player_hand) gs.deck gs.dealer_hand).isSome = true := by
  obtain ⟨ihp, _, ihl⟩ := reachable_invariant h
  have hlen : gs.player_hand.length + gs.dealer_hand.length + gs.deck.length = 40 := by
    have h2 := ihp.length_eq
    simp only [List.length_append, CARDS_length] at h2
    omega
  apply dealer_loop_some
  · intro c hc
    exact bounds_of_perm ihp c (by simp [hc])
  · intro c hc
    exact bounds_of_perm ihp c (by simp [hc])
  · omega

/-! ### Concrete score values used by witnesses -/

lemma score_one : calculate_score [1] = 1 := by
  rw [calculate_score_eq_half, show half_score [1] = 2 from by decide]
  norm_num

lemma score_three : calculate_score [3] = 3 := by
  rw [calculate_score_eq_half, show half_score [3] = 6 from by decide]
  norm_num

lemma score_seven : calculate_score [7] = 7 := by
  rw [calculate_score_eq_half, show half_score [7] = 14 from by decide]
  norm_num

lemma score_three_seven : calculate_score [3, 7] = 10 := by
  rw [calculate_score_eq_half, show half_score [3, 7] = 20 from by decide]
  norm_num

/-- The concrete round state `gs_started` is reachable: it is the result of
a successful Start with the identity shuffle. -/
lemma reachable_gs_started : Reachable gs_started dbW :=
  Reachable.start 1 50 CARDS dbW pW initial_game_state gs_started dbW
    (List.Perm.refl _) rfl (by norm_num [pW]) (by norm_num) rfl

/-! ### Claims -/

/-- Claim C1: for every hand (of real card ranks), `calculate_score` equals
the spec's reference algorithm (base sum of non-wildcard card values, then
the four-case wildcard update per rank-10 card), and in particular
`score([10]) = 0.5`, `score([10,10]) = 7.5`, `score([10,3]) = 7.0`,
`score([7,1]) = 8.0`, `score([8,9]) = 1.0`. -/
theorem score_matches_spec_algorithm :
    (∀ hand : List Nat, (∀ c ∈ hand, 1 ≤ c ∧ c ≤ 10) →
      calculate_score hand = spec_score hand) ∧
    calculate_score [10] = 1/2 ∧ calculate_score [10, 10] = 15/2 ∧
    calculate_score [10, 3] = 7 ∧ calculate_score [7, 1] = 8 ∧
    calculate_score [8, 9] = 1 := by
  refine ⟨fun hand hmem => calculate_score_eq_spec_score hmem, ?_, ?_, ?_, ?_, ?_⟩
  · rw [calculate_score_eq_half, show half_score [10] = 1 from by decide]
    norm_num
  · rw [calculate_score_eq_half, show half_score [10, 10] = 15 from by decide]
    norm_num
  · rw [calculate_score_eq_half, show half_score [10, 3] = 14 from by decide]
    norm_num
  · rw [calculate_score_eq_half, show half_score [7, 1] = 16 from by decide]
    norm_num
  · rw [calculate_score_eq_half, show half_score [8, 9] = 2 from by decide]
    norm_num

/-- Claim C1 witness: the general equivalence applied to the hand `[10, 3]`. -/
theorem score_matches_spec_algorithm_witness :
    calculate_score [10, 3] = spec_score [10, 3] :=
  score_matches_spec_algorithm.1 [10, 3] (by decide)

/-- Claim C2: in the Stand settlement (given the dealer loop's final hand and
a matching player row), the player's balance becomes `balance + bet` when
`playerScore ≤ 7.5 ∧ (dealerScore > 7.5 ∨ playerScore > dealerScore)`, and
`balance - bet` in every other case, a tie included; there is no third
outcome on this path. -/
theorem stay_settlement_rule (db : List Player) (gs : GameState)
    (deck' dh' : List Nat) (p : Player)
    (hloop : dealer_loop (calculate_score gs.player_hand) gs.deck gs.dealer_hand =
      some (deck', dh'))
    (hq : queryPlayer db gs.current_player_id = some p) :
    ((calculate_score gs.player_hand ≤ 15/2 ∧
        (calculate_score dh' > 15/2 ∨
          calculate_score gs.player_hand > calculate_score dh')) →
      (stay db gs).map (fun r => getBalance r.2 p.id) =
        some (some (p.balance + gs.bet))) ∧
    (¬ (calculate_score gs.player_hand ≤ 15/2 ∧
        (calculate_score dh' > 15/2 ∨
          calculate_score gs.player_hand > calculate_score dh')) →
      (stay db gs).map (fun r => getBalance r.2 p.id) =
        some (some (p.balance - gs.bet))) := by
  cases hcp : gs.current_player_id with
  | none =>
    rw [hcp] at hq
    exact absurd hq (by simp [queryPlayer])
  | some pid =>
    have hq' := hq
    rw [hcp] at hq'
    have hfind : db.find? (fun q => q.id == pid) = some p := hq'
    have hpid : p.id = pid := find?_id_eq hfind
    constructor
    · intro hc
      rw [stay_win hloop hq hc]
      simp only [Option.map_some']
      rw [hpid, getBalance_updateBalance, getBalance_of_find? hfind]
      simp
    · intro hc
      rw [stay_lose hloop hq hc]
      simp only [Option.map_some']
      rw [hpid, getBalance_updateBalance, getBalance_of_find? hfind]
      simp [sub_eq_add_neg]

/-- Claim C2 witness: standing with player 3 against dealer 7 loses the
10-unit bet, moving the balance from 100 to 90. -/
theorem stay_settlement_rule_witness :
    (stay dbW gs_stand).map (fun r => getBalance r.2 pW.id) =
      some (some (90 : ℚ)) := by
  have hloop : dealer_loop (calculate_score gs_stand.player_hand)
      gs_stand.deck gs_stand.dealer_hand = some ([], [7]) := by
    show dealer_loop (calculate_score [3]) [] [7] = some ([], [7])
    exact dealer_loop_eq_of_break []
      (by rw [score_seven]; norm_num)
      (Or.inl ⟨by rw [score_seven, score_three]; norm_num,
               by rw [score_seven]; norm_num⟩)
  have h := (stay_settlement_rule dbW gs_stand [] [7] pW hloop rfl).2
    (by
      show ¬ (calculate_score [3] ≤ 15/2 ∧
        (calculate_score [7] > 15/2 ∨ calculate_score [3] > calculate_score [7]))
      rw [score_three, score_seven]
      norm_num)
  rw [h]
  norm_num [pW, gs_stand]

/-- Claim C3: from an InProgress round, if the card drawn by Hit takes the
player score above 7.5 the round settles at once with the bust message and
the bet deducted, independently of the dealer hand (which is neither drawn
to nor consulted); otherwise the round stays InProgress and neither balance
nor message changes. -/
theorem hit_bust_transition (db : List Player) (gs : GameState) (c : Nat)
    (deck' : List Nat) (p : Player)
    (hgo : gs.game_over = false)
    (hpop : listPop gs.deck = some (c, deck'))
    (hq : queryPlayer db gs.current_player_id = some p) :
    (calculate_score (gs.player_hand ++ [c]) > 15/2 →
      (∀ dh0 : List Nat,
        hit db { gs with dealer_hand := dh0 } =
          some ({ gs with dealer_hand := dh0, deck := deck',
                          player_hand := gs.player_hand ++ [c], game_over := true,
                          result_message := "Hai Sballato! Vince il Banco." },
                updateBalance db p.id (-gs.bet))) ∧
      getBalance (updateBalance db p.id (-gs.bet)) p.id =
        some (p.balance - gs.bet)) ∧
    (¬ calculate_score (gs.player_hand ++ [c]) > 15/2 →
      hit db gs = some ({ gs with deck := deck',
                                  player_hand := gs.player_hand ++ [c] }, db)) := by
  have hex : ∃ pid, gs.current_player_id = some pid := by
    cases hcp2 : gs.current_player_id with
    | none => rw [hcp2] at hq; exact absurd hq (by simp [queryPlayer])
    | some pid => exact ⟨pid, rfl⟩
  obtain ⟨pid, hcp⟩ := hex
  have hq' := hq
  rw [hcp] at hq'
  have hfind : db.find? (fun q => q.id == pid) = some p := hq'
  have hpid : p.id = pid := find?_id_eq hfind
  refine ⟨fun hbust => ⟨fun dh0 => ?_, ?_⟩, fun hsafe => hit_safe hgo hpop hsafe⟩
  · have hb := @hit_bust db { gs with dealer_hand := dh0 } c deck' hgo hpop hbust
    have hq0 : queryPlayer db ({ gs with dealer_hand := dh0 } : GameState).current_player_id =
        some p := hq
    rw [hb, hq0]
  · rw [hpid, getBalance_updateBalance, getBalance_of_find? hfind]
    simp [sub_eq_add_neg]

/-- Claim C3 witness: hitting a 7 on a hand holding a 3 (score 10 > 7.5)
with an arbitrary substituted dealer hand settles the round with the bust
message and deducts the 20-unit bet. -/
theorem hit_bust_transition_witness :
    hit dbW { gs_hit with dealer_hand := [9, 9] } =
      some ({ gs_hit with dealer_hand := [9, 9], deck := [], player_hand := [3, 7],
                          game_over := true,
                          result_message := "Hai Sballato! Vince il Banco." },
            updateBalance dbW 1 (-(20:ℚ))) := by
  have h := (hit_bust_transition dbW gs_hit 7 [] pW rfl rfl rfl).1
    (by
      show calculate_score [3, 7] > 15/2
      rw [score_three_seven]
      norm_num)
  exact h.1 [9, 9]

/-- Claim C4: the Dealer Policy (with the player's final score fixed) draws
exactly when none of the three stopping conditions hold: `D ≥ 7.5`,
`D > P ∧ D ≥ 6`, `D = P ∧ D ≥ 6`; in particular a tie below 6 keeps
drawing, and the policy is a deterministic function of the shuffled deck. -/
theorem dealer_policy_stop_conditions (ps : ℚ) (deck hand : List Nat) :
    ((15/2 ≤ calculate_score hand ∨
      (calculate_score hand > ps ∧ calculate_score hand ≥ 6) ∨
      (calculate_score hand = ps ∧ calculate_score hand ≥ 6)) →
      dealer_loop ps deck hand = some (deck, hand)) ∧
    (¬ (15/2 ≤ calculate_score hand ∨
      (calculate_score hand > ps ∧ calculate_score hand ≥ 6) ∨
      (calculate_score hand = ps ∧ calculate_score hand ≥ 6)) →
      (listPop deck = none → dealer_loop ps deck hand = none) ∧
      (∀ c deck', listPop deck = some (c, deck') →
        dealer_loop ps deck hand = dealer_loop ps deck' (hand ++ [c]))) := by
  constructor
  · intro h
    by_cases hlt : calculate_score hand < 15/2
    · rcases h with h | h | h
      · exact absurd hlt (not_lt.2 h)
      · exact dealer_loop_eq_of_break deck hlt (Or.inl h)
      · exact dealer_loop_eq_of_break deck hlt (Or.inr h)
    · exact dealer_loop_eq_of_ge ps deck hlt
  · intro h
    simp only [not_or] at h
    obtain ⟨hA, hB, hC⟩ := h
    have hlt : calculate_score hand < 15/2 := not_le.1 hA
    exact ⟨fun hp => dealer_loop_eq_of_empty hlt hB hC hp,
           fun c deck' hp => dealer_loop_eq_of_draw hlt hB hC hp⟩

/-- Claim C4 witness: a dealer 7 against a player 2 stops immediately
(strictly ahead with at least 6) without touching the deck. -/
theorem dealer_policy_stop_conditions_witness :
    dealer_loop 2 [5] [7] = some ([5], [7]) :=
  (dealer_policy_stop_conditions 2 [5] [7]).1
    (Or.inr (Or.inl ⟨by rw [score_seven]; norm_num, by rw [score_seven]; norm_num⟩))

/-- Claim C5 counterexample: on a round already Settled (`game_over = true`)
the Stand transition is NOT a no-op — it re-runs settlement and changes the
player's balance from 100 to 90. -/
theorem stay_on_settled_round_changes_balance :
    gs_settled.game_over = true ∧
    (stay dbW gs_settled).map (fun r => r.2.map Player.balance) =
      some [(90 : ℚ)] ∧
    dbW.map Player.balance = [(100 : ℚ)] ∧ (90 : ℚ) ≠ 100 := by
  refine ⟨rfl, ?_, rfl, by norm_num⟩
  have hloop : dealer_loop (calculate_score gs_settled.player_hand)
      gs_settled.deck gs_settled.dealer_hand = some ([], [7]) := by
    show dealer_loop (calculate_score [1]) [] [7] = some ([], [7])
    exact dealer_loop_eq_of_break []
      (by rw [score_seven]; norm_num)
      (Or.inl ⟨by rw [score_seven, score_one]; norm_num,
               by rw [score_seven]; norm_num⟩)
  have hnc : ¬ (calculate_score gs_settled.player_hand ≤ 15/2 ∧
      (calculate_score [7] > 15/2 ∨
        calculate_score gs_settled.player_hand > calculate_score [7])) := by
    show ¬ (calculate_score [1] ≤ 15/2 ∧
      (calculate_score [7] > 15/2 ∨ calculate_score [1] > calculate_score [7]))
    rw [score_one, score_seven]
    norm_num
  rw [stay_lose hloop
    (show queryPlayer dbW gs_settled.current_player_id = some pW from rfl) hnc]
  norm_num [updateBalance, pW, gs_settled]

/-- Claim C5 (amended): invoking Hit on a round whose status is Settled
(`game_over = true`) is a no-op: deck, hands, status, message, and every
balance are unchanged.  (The original claim also asserted this for Stand
and for the absent-round state; the code's `stay` handler has no such
guard, as the counterexample shows.) -/
theorem hit_on_settled_round_noop (db : List Player) (gs : GameState)
    (h : gs.game_over = true) : hit db gs = some (gs, db) :=
  hit_settled h

/-- Claim C5 witness: Hit on the concrete settled round changes nothing. -/
theorem hit_on_settled_round_noop_witness :
    hit dbW gs_settled = some (gs_settled, dbW) :=
  hit_on_settled_round_noop dbW gs_settled rfl

/-- Claim C6: `calculate_score` is invariant under any permutation of the
hand; wildcard resolution does not depend on the processing order. -/
theorem score_permutation_invariant (h1 h2 : List Nat) (hp : List.Perm h1 h2) :
    calculate_score h1 = calculate_score h2 := by
  unfold calculate_score
  have hf : List.Perm (h1.filter (fun c => c ≠ 10)) (h2.filter (fun c => c ≠ 10)) :=
    hp.filter _
  rw [hp.count_eq, (hf.map CARD_VALUES).sum_eq]

/-- Claim C6 witness: the two orders of the hand `{3, 10}` score equally. -/
theorem score_permutation_invariant_witness :
    calculate_score [3, 10] = calculate_score [10, 3] :=
  score_permutation_invariant [3, 10] [10, 3] (by decide)

/-- Claim C7: from every reachable state, the Dealer Policy's draw loop
terminates with a result (it never attempts to draw from an empty deck),
and it only moves cards from the deck to the dealer hand, so the number of
draws is bounded by the remaining deck. -/
theorem dealer_policy_terminates_on_reachable (gs : GameState) (db : List Player)
    (h : Reachable gs db) :
    (dealer_loop (calculate_score gs.player_hand) gs.deck gs.dealer_hand).isSome = true ∧
    (∀ deck' dh',
      dealer_loop (calculate_score gs.player_hand) gs.deck gs.dealer_hand =
        some (deck', dh') →
      dh'.length + deck'.length = gs.dealer_hand.length + gs.deck.length) := by
  refine ⟨reachable_dealer_loop_some h, ?_⟩
  intro deck' dh' heq
  have hp := dealer_loop_perm heq
  have hlen := hp.length_eq
  simp only [List.length_append] at hlen
  omega

/-- Claim C7 witness: the dealer loop from the concrete reachable
just-started round returns a result. -/
theorem dealer_policy_terminates_on_reachable_witness :
    (dealer_loop (calculate_score gs_started.player_hand)
      gs_started.deck gs_started.dealer_hand).isSome = true :=
  (dealer_policy_terminates_on_reachable gs_started dbW reachable_gs_started).1

/-- Claim C8: a Start request with a failing precondition (unknown player,
non-positive bet, or bet above the balance) leaves the round slot and the
player table exactly as they were; when all preconditions hold — the
boundary `bet = balance` included — the slot holds a fresh InProgress round
drawn from the shuffled 40-card deck, one card per hand, 38 cards left. -/
theorem start_game_precondition_behavior (pid : Nat) (bet : ℚ)
    (shuffled : List Nat) (db : List Player) (gs : GameState) :
    (db.find? (fun q => q.id == pid) = none →
      start_game pid bet shuffled db gs = some (gs, db)) ∧
    (∀ p, db.find? (fun q => q.id == pid) = some p →
      (bet ≤ 0 ∨ p.balance < bet) →
      start_game pid bet shuffled db gs = some (gs, db)) ∧
    (∀ p, db.find? (fun q => q.id == pid) = some p →
      0 < bet → bet ≤ p.balance → List.Perm shuffled CARDS →
      ∃ c1 c2 d2, start_game pid bet shuffled db gs =
        some ({ deck := d2, player_hand := [c1], dealer_hand := [c2],
                current_player_id := some pid, bet := bet, game_over := false,
                result_message := "", active := true }, db) ∧
        List.Perm ([c1] ++ [c2] ++ d2) CARDS ∧ d2.length = 38) := by
  refine ⟨fun h => start_game_reject_none gs h,
          fun p hp hb => start_game_reject_bet gs hp hb.symm,
          fun p hp hpos hble hshuf => ?_⟩
  have hbet : ¬ (p.balance < bet ∨ bet ≤ 0) :=
    not_or.2 ⟨not_lt.2 hble, not_le.2 hpos⟩
  have hlen : shuffled.length = 40 := by rw [hshuf.length_eq]; rfl
  have hne : shuffled ≠ [] := by
    intro hn; subst hn; simp at hlen
  obtain ⟨c1, d1, hp1⟩ := listPop_of_ne_nil hne
  have hd1 : d1.length = 39 := by
    have := listPop_length hp1; omega
  have hne1 : d1 ≠ [] := by
    intro hn; subst hn; simp at hd1
  obtain ⟨c2, d2, hp2⟩ := listPop_of_ne_nil hne1
  have hd2 : d2.length = 38 := by
    have := listPop_length hp2; omega
  refine ⟨c1, c2, d2, start_game_accept gs hp hbet hp1 hp2, ?_, hd2⟩
  have hperm1 : List.Perm shuffled (c1 :: d1) := listPop_perm hp1
  have hperm2 : List.Perm d1 (c2 :: d2) := listPop_perm hp2
  refine List.Perm.trans ?_ hshuf
  show List.Perm (c1 :: c2 :: d2) shuffled
  exact List.Perm.trans (List.Perm.cons c1 hperm2.symm) hperm1.symm

/-- Claim C8 witness: a zero bet is silently declined, leaving state and
table unchanged. -/
theorem start_game_precondition_behavior_witness :
    start_game 1 0 CARDS dbW initial_game_state =
      some (initial_game_state, dbW) :=
  (start_game_precondition_behavior 1 0 CARDS dbW initial_game_state).2.1
    pW rfl (Or.inl (by norm_num))

/-- Claim C9: every state reachable from a successful Start by Hit and
Stand transitions still carries the full 40-card multiset split between
deck, player hand and dealer hand. -/
theorem reachable_card_conservation (gs : GameState) (db : List Player)
    (h : Reachable gs db) :
    List.Perm (gs.player_hand ++ gs.dealer_hand ++ gs.deck) CARDS ∧
    gs.deck.length + gs.player_hand.length + gs.dealer_hand.length = 40 := by
  obtain ⟨hp, _, _⟩ := reachable_invariant h
  refine ⟨hp, ?_⟩
  have h2 := hp.length_eq
  simp only [List.length_append, CARDS_length] at h2
  omega

/-- Claim C9 witness: conservation at the concrete just-started round. -/
theorem reachable_card_conservation_witness :
    List.Perm (gs_started.player_hand ++ gs_started.dealer_hand ++ gs_started.deck)
      CARDS ∧
    gs_started.deck.length + gs_started.player_hand.length +
      gs_started.dealer_hand.length = 40 :=
  reachable_card_conservation gs_started dbW reachable_gs_started

/-- Claim C10: a Start request whose preconditions hold is accepted for ANY
current round state — it unconditionally overwrites the round slot with the
fresh round (discarding an in-progress round without settlement) and
returns the player table unchanged, mutating no balance. -/
theorem start_game_overwrite_frame (pid : Nat) (bet : ℚ) (shuffled : List Nat)
    (db : List Player) (p : Player) (c1 c2 : Nat) (d1 d2 : List Nat)
    (hfind : db.find? (fun q => q.id == pid) = some p)
    (hbal : ¬ p.balance < bet) (hpos : 0 < bet)
    (h1 : listPop shuffled = some (c1, d1)) (h2 : listPop d1 = some (c2, d2)) :
    ∀ gs : GameState, start_game pid bet shuffled db gs =
      some ({ deck := d2, player_hand := [c1], dealer_hand := [c2],
              current_player_id := some pid, bet := bet, game_over := false,
              result_message := "", active := true }, db) :=
  fun gs => start_game_accept gs hfind (not_or.2 ⟨hbal, not_le.2 hpos⟩) h1 h2

/-- Claim C10 witness: starting over the in-progress round `gs_busy`
overwrites it with the fresh round and leaves the table untouched. -/
theorem start_game_overwrite_frame_witness :
    start_game 1 50 CARDS dbW gs_busy = some (gs_started, dbW) :=
  start_game_overwrite_frame 1 50 CARDS dbW pW 10 9
    CARDS.dropLast CARDS.dropLast.dropLast
    rfl (by norm_num [pW]) (by norm_num) rfl rfl gs_busy

end SetteMezzo
